import Mathlib

/-!
Verification of the incremental caching and dependency-tracking layer of a
static-site generator (`gen/caching.py`, `gen/cli.py`, `gen/checks.py`).

Python dicts are embedded as association lists (`List (α × β)`) with
first-occurrence lookup; Python sets of page ids as `List String` with
membership semantics; the namespaced string keys of the modification-time
snapshot (`'dir:gen'`, `'node:<id>'`) as the inductive type `UKey`.
-/

set_option maxHeartbeats 1000000

namespace Gen

/-- First-occurrence lookup in an association list (Python `dict.get`). -/
def alookup {α β : Type} [DecidableEq α] : List (α × β) → α → Option β
  | [], _ => none
  | (k, v) :: rest, a => if a = k then some v else alookup rest a

/-- `d[k] = v` on an association list (Python dict item assignment):
replace the value at an existing key, else append the pair. -/
def dictSet {α β : Type} [DecidableEq α] (m : List (α × β)) (k : α) (v : β) :
    List (α × β) :=
  if (alookup m k).isSome then
    m.map (fun kv => if kv.1 = k then (k, v) else kv)
  else
    m ++ [(k, v)]

/-- Python `old.update(new)` applied to a copy of `old`. -/
def dictUpdate {α β : Type} [DecidableEq α] (old new : List (α × β)) :
    List (α × β) :=
  new.foldl (fun m kv => dictSet m kv.1 kv.2) old

/-- Python `d.pop(k, None)`: remove the entry for `k`, if any. -/
def dictPop {α β : Type} [DecidableEq α] (m : List (α × β)) (k : α) :
    List (α × β) :=
  m.filter (fun kv => kv.1 ≠ k)

/-- Python `d.setdefault(k, v)`: insert `(k, v)` only when `k` is absent. -/
def dictSetdefault {α β : Type} [DecidableEq α] (m : List (α × β)) (k : α) (v : β) :
    List (α × β) :=
  if (alookup m k).isSome then m else m ++ [(k, v)]

/-- `d.setdefault(k, set()).add(x)` on a dict of sets of strings
(`DependecyTracker.page` and `invert_dependencies` both use this shape). -/
def depAdd (m : List (String × List String)) (k x : String) :
    List (String × List String) :=
  if (alookup m k).isSome then
    m.map (fun kv => if kv.1 = k then (kv.1, kv.2.insert x) else kv)
  else
    m ++ [(k, [x])]

/-- The set stored in a dict of sets under key `k`, empty when absent. -/
def lookupSet (m : List (String × List String)) (k : String) : List String :=
  (alookup m k).getD []

/-- A tracked unit key of the modification-time snapshot:
`'dir:<name>'` for a source directory, `'node:<id>'` for a content page. -/
inductive UKey where
  | dir (name : String)
  | node (id : String)
deriving DecidableEq, Repr

/-- `key.startswith('dir:')`. -/
def UKey.isDir : UKey → Bool
  | .dir _ => true
  | .node _ => false

/-- `key.partition(':')[2]`: the part of the key after the namespace prefix. -/
def UKey.stripId : UKey → String
  | .dir s => s
  | .node s => s

/-- The file-system view `invalidate_cache` consults: for each tracked unit,
the modification times of the files its glob currently matches.
`pagePaths` is `storage.get_page_paths()` paired with the mtimes of the
files matched by each page's path. -/
structure FS where
  genFiles : List Nat
  templateFiles : List Nat
  pagePaths : List (String × List Nat)
deriving DecidableEq, Repr

/-- The persisted `diskcache.Cache`, restricted to what `invalidate_cache`
and the post-run merge read and write: the `'mtimes'` entry, the
`'dependencies'` entry, and the node-tagged data entries (each data entry
represented by its tag's page id; several entries may share a tag). -/
structure Cache where
  mtimes : List (UKey × Nat)
  dependencies : List (String × List String)
  entries : List String
deriving DecidableEq, Repr

/-- `check_mtime(key, path, glob)`: the new mtime of a unit is the max of the
stored one and the mtimes of all currently matching files; the unit is
recorded as changed only when that strictly increased. -/
def check_mtime (oldMtimes : List (UKey × Nat)) (key : UKey) (files : List Nat) :
    Option (UKey × Nat) :=
  let old := (alookup oldMtimes key).getD 0
  let newMt := files.foldl max old
  if newMt > old then some (key, newMt) else none

/-- The `new_mtimes` dict built by `invalidate_cache`:
`dir:gen`, `dir:templates`, then one `node:<id>` unit per page path. -/
def newMtimes (fs : FS) (oldMtimes : List (UKey × Nat)) : List (UKey × Nat) :=
  ((check_mtime oldMtimes (.dir "gen") fs.genFiles).toList
      ++ (check_mtime oldMtimes (.dir "templates") fs.templateFiles).toList)
    ++ fs.pagePaths.filterMap (fun p => check_mtime oldMtimes (.node p.1) p.2)

/-- `invert_dependencies(dependencies)`. -/
def invert_dependencies (dependencies : List (String × List String)) :
    List (String × List String) :=
  dependencies.foldl
    (fun rv kv => kv.2.foldl (fun rv' value => depAdd rv' value kv.1) rv) []

/-- The `to_evict` set of the selective branch of `invalidate_cache`:
every changed unit key, plus `node:<d>` for each recorded dependent `d`
of a changed page (one layer of the inverted graph). -/
def toEvict (newM : List (UKey × Nat))
    (dependents : List (String × List String)) : List UKey :=
  newM.foldl
    (fun acc kv =>
      acc ++ ([kv.1] ++ (lookupSet dependents kv.1.stripId).map UKey.node))
    []

/-- `invalidate_cache(project, storage, cache)`: returns the updated cache
and the set of evicted page ids (a list with set semantics). -/
def invalidate_cache (fs : FS) (c : Cache) : Cache × List String :=
  let oldM := c.mtimes
  let newM := newMtimes fs oldM
  if newM.isEmpty then (c, [])
  else
    let updated := dictUpdate oldM newM
    if newM.any (fun kv => kv.1.isDir) then
      (⟨updated, [], []⟩, [])
    else
      let evictKeys := toEvict newM (invert_dependencies c.dependencies)
      let entries := c.entries.filter (fun i => decide (UKey.node i ∉ evictKeys))
      (⟨updated, c.dependencies, entries⟩, evictKeys.map UKey.stripId)

/-- The post-run dependency-graph merge in `cli.freeze`: pop the entry of
every evicted page, then `setdefault` each entry observed by the tracker
during this run. -/
def mergeDependencies (old : List (String × List String)) (evicted : List String)
    (newDeps : List (String × List String)) : List (String × List String) :=
  newDeps.foldl (fun m kv => dictSetdefault m kv.1 kv.2)
    (evicted.foldl (fun m id => dictPop m id) old)

/-- `DependecyTracker` (name as in the source): the observed dependency
mapping and the stack of currently rendering page ids. The innermost id is
the last element (Python appends and reads `_stack[-1]`). -/
structure DependecyTracker where
  dependencies : List (String × List String)
  stack : List String
deriving DecidableEq, Repr

/-- `DependecyTracker.start_node`: push the id being rendered. -/
def DependecyTracker.start_node (t : DependecyTracker) (id : String) :
    DependecyTracker :=
  { t with stack := t.stack ++ [id] }

/-- `DependecyTracker.end_node`: pop the innermost id. -/
def DependecyTracker.end_node (t : DependecyTracker) : DependecyTracker :=
  { t with stack := t.stack.dropLast }

/-- `DependecyTracker.page`: attribute a single observed page to the
innermost stack frame; no-op when the stack is empty. -/
def DependecyTracker.page (t : DependecyTracker) (pageId : String) :
    DependecyTracker :=
  match t.stack.getLast? with
  | none => t
  | some top => { t with dependencies := depAdd t.dependencies top pageId }

/-- `DependecyTracker.pages`: attribute every observed page id to the
innermost stack frame (`set.update`); no-op when the stack is empty. -/
def DependecyTracker.pages (t : DependecyTracker) (pageIds : List String) :
    DependecyTracker :=
  match t.stack.getLast? with
  | none => t
  | some top =>
    { t with
      dependencies := pageIds.foldl (fun d i => depAdd d top i) t.dependencies }

/-- `intercept_node(fn, tracker)` applied to the page view: `start_node` on
entry, the wrapped function (which may itself mutate the tracker through
the observation hooks), then `end_node` — but only on normal return; the
wrapper has no `try`/`finally`, so an exception skips `on_return`. -/
def intercept_node {E A : Type} (fn : DependecyTracker → String → Except E A × DependecyTracker)
    (t : DependecyTracker) (id : String) : Except E A × DependecyTracker :=
  match fn (t.start_node id) id with
  | (.ok rv, t2) => (.ok rv, t2.end_node)
  | (.error e, t2) => (.error e, t2)

/-- The two cache tiers seen by a function wrapped by
`make_node_cache_decorator`: the in-process `functools.lru_cache` memo and
the persisted store, both keyed by (function qualname, id). -/
structure CacheTiers (V : Type) where
  memo : List ((String × String) × V)
  store : List ((String × String) × V)
deriving DecidableEq, Repr

/-- One call of the wrapper produced by `make_node_cache_decorator`:
memo hit short-circuits; a persisted-store hit populates the memo; a miss
calls `fn`, and only a normal return is stored (in both tiers, tagged
`node:<id>`); an exception propagates with neither tier changed
(`functools.lru_cache` does not cache raising calls, and `cache.set` is
never reached). -/
def cachedCall {V : Type} (fn : String → Except String V) (fname : String)
    (st : CacheTiers V) (id : String) : Except String V × CacheTiers V :=
  match alookup st.memo (fname, id) with
  | some v => (.ok v, st)
  | none =>
    match alookup st.store (fname, id) with
    | some v => (.ok v, { st with memo := st.memo ++ [((fname, id), v)] })
    | none =>
      match fn id with
      | .ok v =>
        (.ok v, ⟨st.memo ++ [((fname, id), v)], st.store ++ [((fname, id), v)]⟩)
      | .error e => (.error e, st)

/-- An internal link as recorded by `LinkChecker.get_internal_links`:
the matched endpoint, the target page id from the match's args, and the
URL's fragment (empty string when there is none). -/
structure InternalLink where
  endpoint : String
  targetId : String
  fragment : String
deriving DecidableEq, Repr

/-- The per-link body of `LinkChecker.check_internal_links`:
`thingie.get_page(target_id)` first (a missing page reports
`"node not found"`), then the endpoint-specific checks. `pageExists`
embeds whether `get_page` raises `FileNotFoundError`; `fragments` embeds
`get_fragments` of the target page. -/
def checkLink (pageExists : String → Bool) (fragments : String → List String)
    (link : InternalLink) : Option String :=
  if ¬ pageExists link.targetId then some "node not found"
  else if link.endpoint = "main.page" then
    if link.fragment ≠ "" ∧ link.fragment ∉ fragments link.targetId then
      some "fragment not found"
    else none
  else if link.endpoint = "main.file" then none
  else if link.endpoint = "feed.feed" then
    if link.fragment ≠ "" then some "feed URL should not have fragment"
    else none
  else none

/-! ### Association-list lemmas -/

theorem alookup_append {α β : Type} [DecidableEq α] (m1 m2 : List (α × β)) (a : α) :
    alookup (m1 ++ m2) a = (alookup m1 a).or (alookup m2 a) := by
  induction m1 with
  | nil => rfl
  | cons kv rest ih =>
    obtain ⟨k, v⟩ := kv
    by_cases h : a = k
    · simp [alookup, h]
    · simp [alookup, h, ih]

theorem alookup_nil {α β : Type} [DecidableEq α] (a : α) :
    alookup ([] : List (α × β)) a = none := rfl

theorem alookup_cons {α β : Type} [DecidableEq α]
    (k : α) (v : β) (rest : List (α × β)) (a : α) :
    alookup ((k, v) :: rest) a = if a = k then some v else alookup rest a := rfl

theorem alookup_map_replace_self {α β : Type} [DecidableEq α]
    (m : List (α × β)) (k : α) (v : β) :
    alookup (m.map (fun kv => if kv.1 = k then (k, v) else kv)) k
      = (alookup m k).map (fun _ => v) := by
  induction m with
  | nil => rfl
  | cons kv rest ih =>
    obtain ⟨k0, v0⟩ := kv
    rw [List.map_cons]
    show alookup ((if k0 = k then (k, v) else (k0, v0)) :: _) k = _
    by_cases h : k0 = k
    · rw [if_pos h, alookup_cons, if_pos rfl, alookup_cons,
        if_pos (h.symm : k = k0)]
      rfl
    · rw [if_neg h, alookup_cons, if_neg (fun hh => h hh.symm), alookup_cons,
        if_neg (fun hh => h hh.symm), ih]

theorem alookup_map_replace_ne {α β : Type} [DecidableEq α]
    (m : List (α × β)) (k : α) (v : β) (a : α) (ha : a ≠ k) :
    alookup (m.map (fun kv => if kv.1 = k then (k, v) else kv)) a
      = alookup m a := by
  induction m with
  | nil => rfl
  | cons kv rest ih =>
    obtain ⟨k0, v0⟩ := kv
    rw [List.map_cons]
    show alookup ((if k0 = k then (k, v) else (k0, v0)) :: _) a = _
    by_cases h : k0 = k
    · rw [if_pos h, alookup_cons, if_neg ha, alookup_cons,
        if_neg (h ▸ ha), ih]
    · rw [if_neg h, alookup_cons, alookup_cons, ih]

theorem alookup_dictSet_self {α β : Type} [DecidableEq α]
    (m : List (α × β)) (k : α) (v : β) :
    alookup (dictSet m k v) k = some v := by
  by_cases hs : (alookup m k).isSome
  · rw [dictSet, if_pos hs, alookup_map_replace_self]
    obtain ⟨w, hw⟩ := Option.isSome_iff_exists.mp hs
    rw [hw]
    rfl
  · rw [dictSet, if_neg hs, alookup_append,
      Option.not_isSome_iff_eq_none.mp hs]
    simp [alookup]

theorem alookup_dictSet_ne {α β : Type} [DecidableEq α]
    (m : List (α × β)) (k : α) (v : β) (a : α) (ha : a ≠ k) :
    alookup (dictSet m k v) a = alookup m a := by
  by_cases hs : (alookup m k).isSome
  · rw [dictSet, if_pos hs, alookup_map_replace_ne _ _ _ _ ha]
  · rw [dictSet, if_neg hs, alookup_append]
    simp [alookup, ha]

theorem dictUpdate_cons {α β : Type} [DecidableEq α]
    (old : List (α × β)) (kv : α × β) (rest : List (α × β)) :
    dictUpdate old (kv :: rest) = dictUpdate (dictSet old kv.1 kv.2) rest := rfl

theorem alookup_dictUpdate_not_mem {α β : Type} [DecidableEq α]
    (old new : List (α × β)) (a : α) (h : a ∉ new.map Prod.fst) :
    alookup (dictUpdate old new) a = alookup old a := by
  induction new generalizing old with
  | nil => rfl
  | cons kv rest ih =>
    simp only [List.map_cons, List.mem_cons, not_or] at h
    rw [dictUpdate_cons, ih _ h.2, alookup_dictSet_ne _ _ _ _ h.1]

theorem alookup_dictUpdate_mem {α β : Type} [DecidableEq α]
    (old new : List (α × β)) (a : α) (v : β)
    (hnd : (new.map Prod.fst).Nodup) (hm : (a, v) ∈ new) :
    alookup (dictUpdate old new) a = some v := by
  induction new generalizing old with
  | nil => cases hm
  | cons kv rest ih =>
    rw [List.map_cons, List.nodup_cons] at hnd
    rw [dictUpdate_cons]
    rcases List.mem_cons.mp hm with h | h
    · obtain rfl : kv = (a, v) := h.symm
      rw [alookup_dictUpdate_not_mem _ _ _ hnd.1, alookup_dictSet_self]
    · exact ih _ hnd.2 h

theorem alookup_dictPop_self {α β : Type} [DecidableEq α]
    (m : List (α × β)) (k : α) :
    alookup (dictPop m k) k = none := by
  induction m with
  | nil => rfl
  | cons kv rest ih =>
    obtain ⟨k0, v0⟩ := kv
    by_cases h : k0 = k
    · subst h
      simpa [dictPop, List.filter] using ih
    · have h' : ¬ k = k0 := fun hh => h hh.symm
      simpa [dictPop, List.filter, h, alookup, h'] using ih

theorem alookup_dictPop_ne {α β : Type} [DecidableEq α]
    (m : List (α × β)) (k a : α) (ha : a ≠ k) :
    alookup (dictPop m k) a = alookup m a := by
  induction m with
  | nil => rfl
  | cons kv rest ih =>
    obtain ⟨k0, v0⟩ := kv
    by_cases h : k0 = k
    · subst h
      have h' : ¬ a = k0 := ha
      simpa [dictPop, List.filter, alookup, h'] using ih
    · by_cases h2 : a = k0
      · simp [dictPop, List.filter, h, alookup, h2]
      · simpa [dictPop, List.filter, h, alookup, h2] using ih

theorem alookup_dictSetdefault_ne {α β : Type} [DecidableEq α]
    (m : List (α × β)) (k : α) (v : β) (a : α) (ha : a ≠ k) :
    alookup (dictSetdefault m k v) a = alookup m a := by
  rw [dictSetdefault]
  split
  · rfl
  · rw [alookup_append]
    simp [alookup, ha]

theorem alookup_foldl_setdefault {α β : Type} [DecidableEq α]
    (newDeps : List (α × β)) (d : List (α × β)) (a : α) :
    alookup (newDeps.foldl (fun m kv => dictSetdefault m kv.1 kv.2) d) a
      = (alookup d a).or (alookup newDeps a) := by
  induction newDeps generalizing d with
  | nil =>
    show alookup d a = (alookup d a).or none
    cases alookup d a <;> rfl
  | cons kv rest ih =>
    obtain ⟨k, v⟩ := kv
    rw [List.foldl_cons, ih]
    by_cases hak : a = k
    · subst hak
      by_cases hs : (alookup d a).isSome
      · obtain ⟨w, hw⟩ := Option.isSome_iff_exists.mp hs
        rw [dictSetdefault, if_pos hs, hw]
        rfl
      · rw [dictSetdefault, if_neg hs, alookup_append,
          Option.not_isSome_iff_eq_none.mp hs]
        simp [alookup]
    · rw [alookup_dictSetdefault_ne _ _ _ _ hak]
      simp [alookup, hak]

/-! ### Dependency-dict lemmas (`depAdd`, `invert_dependencies`) -/

theorem alookup_map_modify_self (m : List (String × List String)) (k x : String) :
    alookup (m.map (fun kv => if kv.1 = k then (kv.1, kv.2.insert x) else kv)) k
      = (alookup m k).map (fun s => s.insert x) := by
  induction m with
  | nil => rfl
  | cons kv rest ih =>
    obtain ⟨k0, v0⟩ := kv
    rw [List.map_cons]
    show alookup ((if k0 = k then (k0, v0.insert x) else (k0, v0)) :: _) k = _
    by_cases h : k0 = k
    · rw [if_pos h, alookup_cons, if_pos h.symm, alookup_cons, if_pos h.symm]
      rfl
    · rw [if_neg h, alookup_cons, if_neg (fun hh => h hh.symm), alookup_cons,
        if_neg (fun hh => h hh.symm), ih]

theorem alookup_map_modify_ne (m : List (String × List String)) (k x a : String)
    (ha : a ≠ k) :
    alookup (m.map (fun kv => if kv.1 = k then (kv.1, kv.2.insert x) else kv)) a
      = alookup m a := by
  induction m with
  | nil => rfl
  | cons kv rest ih =>
    obtain ⟨k0, v0⟩ := kv
    rw [List.map_cons]
    show alookup ((if k0 = k then (k0, v0.insert x) else (k0, v0)) :: _) a = _
    by_cases h : k0 = k
    · rw [if_pos h, alookup_cons, if_neg (fun hh => ha (hh.trans h)), alookup_cons,
        if_neg (fun hh => ha (hh.trans h)), ih]
    · rw [if_neg h, alookup_cons, alookup_cons, ih]

theorem alookup_depAdd_self (m : List (String × List String)) (k x : String) :
    alookup (depAdd m k x) k = some (((alookup m k).getD []).insert x) := by
  by_cases hs : (alookup m k).isSome
  · obtain ⟨w, hw⟩ := Option.isSome_iff_exists.mp hs
    rw [depAdd, if_pos hs, alookup_map_modify_self, hw]
    rfl
  · rw [depAdd, if_neg hs, alookup_append, Option.not_isSome_iff_eq_none.mp hs]
    simp [alookup, List.insert]

theorem alookup_depAdd_ne (m : List (String × List String)) (k x a : String)
    (ha : a ≠ k) :
    alookup (depAdd m k x) a = alookup m a := by
  by_cases hs : (alookup m k).isSome
  · rw [depAdd, if_pos hs, alookup_map_modify_ne _ _ _ _ ha]
  · rw [depAdd, if_neg hs, alookup_append]
    simp [alookup, ha]

theorem mem_lookupSet_depAdd (m : List (String × List String)) (k x a y : String) :
    y ∈ lookupSet (depAdd m k x) a ↔ (a = k ∧ y = x) ∨ y ∈ lookupSet m a := by
  by_cases h : a = k
  · subst h
    rw [lookupSet, alookup_depAdd_self]
    simp [lookupSet, List.mem_insert_iff]
  · rw [lookupSet, alookup_depAdd_ne _ _ _ _ h]
    simp [lookupSet, h]

theorem mem_lookupSet_foldl_depAdd_right (ids : List String)
    (m : List (String × List String)) (top a y : String) :
    y ∈ lookupSet (ids.foldl (fun d i => depAdd d top i) m) a
      ↔ (a = top ∧ y ∈ ids) ∨ y ∈ lookupSet m a := by
  induction ids generalizing m with
  | nil => simp
  | cons i rest ih =>
    rw [List.foldl_cons, ih, mem_lookupSet_depAdd]
    by_cases h : a = top
    · simp [h, List.mem_cons]
      tauto
    · simp [h]

theorem mem_lookupSet_foldl_depAdd_left (vs : List String)
    (m : List (String × List String)) (k a y : String) :
    y ∈ lookupSet (vs.foldl (fun rv v => depAdd rv v k) m) a
      ↔ (y = k ∧ a ∈ vs) ∨ y ∈ lookupSet m a := by
  induction vs generalizing m with
  | nil => simp
  | cons v rest ih =>
    rw [List.foldl_cons, ih, mem_lookupSet_depAdd]
    by_cases h : y = k
    · simp only [h, List.mem_cons, true_and]
      tauto
    · simp [h]

theorem mem_lookupSet_invert (deps : List (String × List String)) (a y : String) :
    y ∈ lookupSet (invert_dependencies deps) a
      ↔ ∃ vs, (y, vs) ∈ deps ∧ a ∈ vs := by
  have main : ∀ (l : List (String × List String)) (init : List (String × List String)),
      y ∈ lookupSet
          (l.foldl (fun rv kv => kv.2.foldl (fun rv' value => depAdd rv' value kv.1) rv)
            init) a
        ↔ (∃ vs, (y, vs) ∈ l ∧ a ∈ vs) ∨ y ∈ lookupSet init a := by
    intro l
    induction l with
    | nil => simp
    | cons kv rest ih =>
      intro init
      rw [List.foldl_cons, ih, mem_lookupSet_foldl_depAdd_left]
      constructor
      · rintro (h | (h | h))
        · obtain ⟨vs, hvs, hmem⟩ := h
          exact Or.inl ⟨vs, List.mem_cons_of_mem _ hvs, hmem⟩
        · exact Or.inl ⟨kv.2, by rw [h.1]; exact List.mem_cons_self _ _, h.2⟩
        · exact Or.inr h
      · rintro (⟨vs, hvs, hmem⟩ | h)
        · rcases List.mem_cons.mp hvs with h1 | h1
          · refine Or.inr (Or.inl ⟨?_, ?_⟩)
            · rw [← h1]
            · rw [show kv.2 = vs from by rw [← h1]]
              exact hmem
          · exact Or.inl ⟨vs, h1, hmem⟩
        · exact Or.inr (Or.inr h)
  rw [invert_dependencies, main]
  simp [lookupSet, alookup]

/-! ### Modification-time lemmas -/

theorem le_foldl_max (l : List Nat) (a : Nat) : a ≤ l.foldl max a := by
  induction l generalizing a with
  | nil => exact Nat.le_refl a
  | cons x rest ih => exact Nat.le_trans (Nat.le_max_left a x) (ih (max a x))

theorem mem_le_foldl_max (l : List Nat) (a x : Nat) (h : x ∈ l) :
    x ≤ l.foldl max a := by
  induction l generalizing a with
  | nil => cases h
  | cons y rest ih =>
    rcases List.mem_cons.mp h with h1 | h1
    · rw [h1, List.foldl_cons]
      exact Nat.le_trans (Nat.le_max_right a y) (le_foldl_max rest (max a y))
    · exact ih (max a y) h1

theorem foldl_max_eq_of_le (l : List Nat) (a : Nat) (h : ∀ x ∈ l, x ≤ a) :
    l.foldl max a = a := by
  induction l with
  | nil => rfl
  | cons x rest ih =>
    rw [List.foldl_cons, Nat.max_eq_left (h x (List.mem_cons_self x rest))]
    exact ih (fun y hy => h y (List.mem_cons_of_mem x hy))

theorem check_mtime_eq_none_iff (m : List (UKey × Nat)) (k : UKey)
    (files : List Nat) :
    check_mtime m k files = none ↔ ∀ x ∈ files, x ≤ (alookup m k).getD 0 := by
  rw [check_mtime]
  constructor
  · intro h x hx
    by_cases hgt :
        files.foldl max ((alookup m k).getD 0) > (alookup m k).getD 0
    · rw [if_pos hgt] at h
      cases h
    · exact Nat.le_trans (mem_le_foldl_max files _ x hx) (Nat.le_of_not_lt hgt)
  · intro h
    rw [foldl_max_eq_of_le files _ h]
    simp

theorem check_mtime_some (m : List (UKey × Nat)) (k : UKey) (files : List Nat)
    (p : UKey × Nat) (h : check_mtime m k files = some p) :
    p.1 = k ∧ p.2 = files.foldl max ((alookup m k).getD 0)
      ∧ (alookup m k).getD 0 < p.2 := by
  rw [check_mtime] at h
  split at h
  · cases h
    constructor
    · rfl
    · constructor
      · rfl
      · assumption
  · cases h

theorem mem_newMtimes (fs : FS) (m : List (UKey × Nat)) (kv : UKey × Nat) :
    kv ∈ newMtimes fs m ↔
      check_mtime m (.dir "gen") fs.genFiles = some kv
        ∨ check_mtime m (.dir "templates") fs.templateFiles = some kv
        ∨ ∃ p ∈ fs.pagePaths, check_mtime m (.node p.1) p.2 = some kv := by
  rw [newMtimes]
  simp only [List.mem_append, List.mem_filterMap, Option.mem_toList,
    Option.mem_def, or_assoc]

theorem mem_foldl_append {γ δ : Type} (f : γ → List δ) (l : List γ)
    (init : List δ) (x : δ) :
    x ∈ l.foldl (fun acc c => acc ++ f c) init ↔ x ∈ init ∨ ∃ c ∈ l, x ∈ f c := by
  induction l generalizing init with
  | nil => simp
  | cons c rest ih =>
    rw [List.foldl_cons, ih]
    simp only [List.mem_append, List.mem_cons]
    constructor
    · rintro ((h | h) | ⟨d, hd, hx⟩)
      · exact Or.inl h
      · exact Or.inr ⟨c, Or.inl rfl, h⟩
      · exact Or.inr ⟨d, Or.inr hd, hx⟩
    · rintro (h | ⟨d, (rfl | hd), hx⟩)
      · exact Or.inl (Or.inl h)
      · exact Or.inl (Or.inr hx)
      · exact Or.inr ⟨d, hd, hx⟩

theorem mem_toEvict (newM : List (UKey × Nat))
    (dependents : List (String × List String)) (k : UKey) :
    k ∈ toEvict newM dependents
      ↔ ∃ kv ∈ newM, k = kv.1
          ∨ k ∈ (lookupSet dependents kv.1.stripId).map UKey.node := by
  have h := mem_foldl_append
    (fun kv : UKey × Nat => [kv.1] ++ (lookupSet dependents kv.1.stripId).map UKey.node)
    newM [] k
  simp only [List.mem_append, List.mem_singleton, List.not_mem_nil, false_or] at h
  exact h

/-! ### Branch lemmas for `invalidate_cache` -/

theorem invalidate_cache_nochange (fs : FS) (c : Cache)
    (h : newMtimes fs c.mtimes = []) :
    invalidate_cache fs c = (c, []) := by
  rw [invalidate_cache, h]
  rfl

theorem invalidate_cache_global (fs : FS) (c : Cache)
    (hd : (newMtimes fs c.mtimes).any (fun kv => kv.1.isDir) = true) :
    invalidate_cache fs c
      = (⟨dictUpdate c.mtimes (newMtimes fs c.mtimes), [], []⟩, []) := by
  have hne : (newMtimes fs c.mtimes).isEmpty = false := by
    cases hmt : newMtimes fs c.mtimes
    · rw [hmt] at hd
      cases hd
    · rfl
  rw [invalidate_cache]
  simp only [hne, Bool.false_eq_true, if_false, hd, if_true]

theorem invalidate_cache_selective (fs : FS) (c : Cache)
    (hne : (newMtimes fs c.mtimes).isEmpty = false)
    (hd : (newMtimes fs c.mtimes).any (fun kv => kv.1.isDir) = false) :
    invalidate_cache fs c
      = (⟨dictUpdate c.mtimes (newMtimes fs c.mtimes), c.dependencies,
          c.entries.filter
            (fun i =>
              decide (UKey.node i ∉
                toEvict (newMtimes fs c.mtimes)
                  (invert_dependencies c.dependencies)))⟩,
        (toEvict (newMtimes fs c.mtimes)
            (invert_dependencies c.dependencies)).map UKey.stripId) := by
  rw [invalidate_cache]
  simp only [hne, Bool.false_eq_true, if_false, hd]

theorem mem_of_alookup_eq_some {α β : Type} [DecidableEq α]
    (m : List (α × β)) (a : α) (v : β) (h : alookup m a = some v) :
    (a, v) ∈ m := by
  induction m with
  | nil => cases h
  | cons kv rest ih =>
    obtain ⟨k, w⟩ := kv
    rw [alookup_cons] at h
    by_cases hak : a = k
    · rw [if_pos hak] at h
      subst hak
      injection h with h
      rw [h]
      exact List.mem_cons_self _ _
    · rw [if_neg hak] at h
      exact List.mem_cons_of_mem _ (ih h)

theorem alookup_eq_some_of_mem_nodup {α β : Type} [DecidableEq α]
    (m : List (α × β)) (a : α) (v : β)
    (hnd : (m.map Prod.fst).Nodup) (h : (a, v) ∈ m) :
    alookup m a = some v := by
  induction m with
  | nil => cases h
  | cons kv rest ih =>
    rw [List.map_cons, List.nodup_cons] at hnd
    rcases List.mem_cons.mp h with h1 | h1
    · obtain rfl : kv = (a, v) := h1.symm
      rw [alookup_cons, if_pos rfl]
    · obtain ⟨k, w⟩ := kv
      rw [alookup_cons]
      have hak : a ≠ k := by
        intro hh
        subst hh
        exact hnd.1 (List.mem_map.mpr ⟨(a, v), h1, rfl⟩)
      rw [if_neg hak]
      exact ih hnd.2 h1

/-- For a dependency dict with unique keys (any real Python dict),
membership in the inverted graph coincides with membership in the
forward entry. -/
theorem mem_lookupSet_invert_nodup (deps : List (String × List String))
    (hnd : (deps.map Prod.fst).Nodup) (a y : String) :
    y ∈ lookupSet (invert_dependencies deps) a ↔ a ∈ lookupSet deps y := by
  rw [mem_lookupSet_invert]
  constructor
  · rintro ⟨vs, hvs, ha⟩
    rw [lookupSet, alookup_eq_some_of_mem_nodup _ _ _ hnd hvs]
    exact ha
  · intro h
    rcases hs : alookup deps y with _ | vs
    · rw [lookupSet, hs] at h
      cases h
    · exact ⟨vs, mem_of_alookup_eq_some _ _ _ hs, by rwa [lookupSet, hs] at h⟩

/-! ### Claim theorems -/

/-- C1: Invalidation precision. When the only changed tracked unit is page
`b`'s file, and the persisted dependency graph records that `a`'s last
render observed `b` while recording no relation between `p` and `b`,
`invalidate_cache` evicts the entries tagged for `b` and for `a` (one layer
of dependents via the inverted graph), reports both as evicted, and leaves
`p`'s entries intact. -/
theorem invalidation_precision (fs : FS) (c : Cache) (a b p : String) (t : Nat)
    (hnodup : (c.dependencies.map Prod.fst).Nodup)
    (hnew : newMtimes fs c.mtimes = [(.node b, t)])
    (hab : b ∈ lookupSet c.dependencies a)
    (hpb : p ≠ b)
    (hpdep : b ∉ lookupSet c.dependencies p) :
    b ∈ (invalidate_cache fs c).2
      ∧ a ∈ (invalidate_cache fs c).2
      ∧ b ∉ (invalidate_cache fs c).1.entries
      ∧ a ∉ (invalidate_cache fs c).1.entries
      ∧ p ∉ (invalidate_cache fs c).2
      ∧ (p ∈ c.entries → p ∈ (invalidate_cache fs c).1.entries) := by
  have hne : (newMtimes fs c.mtimes).isEmpty = false := by
    rw [hnew]
    rfl
  have hd : (newMtimes fs c.mtimes).any (fun kv => kv.1.isDir) = false := by
    rw [hnew]
    rfl
  rw [invalidate_cache_selective fs c hne hd]
  have hkey : ∀ k : UKey,
      k ∈ toEvict (newMtimes fs c.mtimes) (invert_dependencies c.dependencies)
        ↔ k = .node b
          ∨ k ∈ (lookupSet (invert_dependencies c.dependencies) b).map UKey.node := by
    intro k
    rw [mem_toEvict, hnew]
    constructor
    · rintro ⟨kv, hkv, h⟩
      rw [List.mem_singleton] at hkv
      subst hkv
      exact h
    · intro h
      exact ⟨(.node b, t), List.mem_singleton.mpr rfl, h⟩
  have hb_in : UKey.node b
      ∈ toEvict (newMtimes fs c.mtimes) (invert_dependencies c.dependencies) :=
    (hkey _).mpr (Or.inl rfl)
  have ha_set : a ∈ lookupSet (invert_dependencies c.dependencies) b :=
    (mem_lookupSet_invert_nodup c.dependencies hnodup b a).mpr hab
  have ha_in : UKey.node a
      ∈ toEvict (newMtimes fs c.mtimes) (invert_dependencies c.dependencies) :=
    (hkey _).mpr (Or.inr (List.mem_map_of_mem _ ha_set))
  have hp_set : p ∉ lookupSet (invert_dependencies c.dependencies) b := by
    intro hp
    exact hpdep ((mem_lookupSet_invert_nodup c.dependencies hnodup b p).mp hp)
  have hp_in : UKey.node p
      ∉ toEvict (newMtimes fs c.mtimes) (invert_dependencies c.dependencies) := by
    intro hmem
    rcases (hkey _).mp hmem with h | h
    · exact hpb (by injection h)
    · rcases List.mem_map.mp h with ⟨x, hx, hxe⟩
      cases hxe
      exact hp_set hx
  refine ⟨?_, ?_, ?_, ?_, ?_, ?_⟩
  · exact List.mem_map.mpr ⟨.node b, hb_in, rfl⟩
  · exact List.mem_map.mpr ⟨.node a, ha_in, rfl⟩
  · intro h
    have h2 := (List.mem_filter.mp h).2
    rw [decide_eq_true_iff] at h2
    exact h2 hb_in
  · intro h
    have h2 := (List.mem_filter.mp h).2
    rw [decide_eq_true_iff] at h2
    exact h2 ha_in
  · intro h
    rcases List.mem_map.mp h with ⟨k, hk, hst⟩
    rcases (hkey k).mp hk with rfl | hk2
    · exact hpb hst.symm
    · rcases List.mem_map.mp hk2 with ⟨x, hx, rfl⟩
      have : x = p := hst
      rw [this] at hx
      exact hp_set hx
  · intro hp
    exact List.mem_filter.mpr ⟨hp, decide_eq_true hp_in⟩

/-- Witness for C1 at a concrete configuration: pages `a`, `b`, `c`;
`a` depends on `b`; only `b`'s file changed. -/
theorem invalidation_precision_witness :
    "b" ∈ (invalidate_cache ⟨[], [], [("b", [5])]⟩
        ⟨[], [("a", ["b"])], ["a", "b", "c"]⟩).2
      ∧ "a" ∈ (invalidate_cache ⟨[], [], [("b", [5])]⟩
          ⟨[], [("a", ["b"])], ["a", "b", "c"]⟩).2
      ∧ "b" ∉ (invalidate_cache ⟨[], [], [("b", [5])]⟩
          ⟨[], [("a", ["b"])], ["a", "b", "c"]⟩).1.entries
      ∧ "a" ∉ (invalidate_cache ⟨[], [], [("b", [5])]⟩
          ⟨[], [("a", ["b"])], ["a", "b", "c"]⟩).1.entries
      ∧ "c" ∉ (invalidate_cache ⟨[], [], [("b", [5])]⟩
          ⟨[], [("a", ["b"])], ["a", "b", "c"]⟩).2
      ∧ ("c" ∈ Cache.entries ⟨[], [("a", ["b"])], ["a", "b", "c"]⟩ →
          "c" ∈ (invalidate_cache ⟨[], [], [("b", [5])]⟩
            ⟨[], [("a", ["b"])], ["a", "b", "c"]⟩).1.entries) :=
  invalidation_precision ⟨[], [], [("b", [5])]⟩
    ⟨[], [("a", ["b"])], ["a", "b", "c"]⟩ "a" "b" "c" 5
    (by decide) (by decide) (by decide) (by decide) (by decide)

/-- C3: Global fallback. If any changed tracked unit is a `dir:` unit, the
entire persisted cache is cleared: every node-tagged entry and the
dependency graph are gone, with no selective per-node eviction. -/
theorem global_fallback (fs : FS) (c : Cache)
    (h : (newMtimes fs c.mtimes).any (fun kv => kv.1.isDir) = true) :
    (invalidate_cache fs c).1.entries = []
      ∧ (invalidate_cache fs c).1.dependencies = [] := by
  rw [invalidate_cache_global fs c h]
  exact ⟨rfl, rfl⟩

/-- Witness for C3: only a template file changed; the entries of pages
`a` and `b` (neither related to the template) are all evicted. -/
theorem global_fallback_witness :
    (invalidate_cache ⟨[], [7], [("a", [0])]⟩ ⟨[], [], ["a", "b"]⟩).1.entries = []
      ∧ (invalidate_cache ⟨[], [7], [("a", [0])]⟩
          ⟨[], [], ["a", "b"]⟩).1.dependencies = [] :=
  global_fallback ⟨[], [7], [("a", [0])]⟩ ⟨[], [], ["a", "b"]⟩ (by decide)

/-! ### Idempotence support (C5) -/

theorem eq_of_fst_eq_nodup {α β : Type} (l : List (α × β)) (p q : α × β)
    (hnd : (l.map Prod.fst).Nodup) (hp : p ∈ l) (hq : q ∈ l) (h : p.1 = q.1) :
    p = q := by
  induction l with
  | nil => cases hp
  | cons kv rest ih =>
    rw [List.map_cons, List.nodup_cons] at hnd
    rcases List.mem_cons.mp hp with h1 | h1 <;> rcases List.mem_cons.mp hq with h2 | h2
    · rw [h1, h2]
    · exfalso
      apply hnd.1
      rw [← h1, h]
      exact List.mem_map.mpr ⟨q, h2, rfl⟩
    · exfalso
      apply hnd.1
      rw [← h2, ← h]
      exact List.mem_map.mpr ⟨p, h1, rfl⟩
    · exact ih hnd.2 h1 h2

theorem mem_filterMap_nodes (m : List (UKey × Nat)) (l : List (String × List Nat))
    (kv : UKey × Nat)
    (h : kv ∈ l.filterMap (fun p => check_mtime m (.node p.1) p.2)) :
    ∃ q ∈ l, kv.1 = .node q.1 ∧ check_mtime m (.node q.1) q.2 = some kv := by
  rcases List.mem_filterMap.mp h with ⟨q, hq, hc⟩
  exact ⟨q, hq, ((check_mtime_some _ _ _ _ hc).1).symm ▸ rfl, hc⟩

theorem nodes_keys_nodup (m : List (UKey × Nat)) (l : List (String × List Nat))
    (hnd : (l.map Prod.fst).Nodup) :
    ((l.filterMap (fun p => check_mtime m (.node p.1) p.2)).map Prod.fst).Nodup := by
  induction l with
  | nil => exact List.nodup_nil
  | cons p rest ih =>
    rw [List.map_cons, List.nodup_cons] at hnd
    rw [List.filterMap_cons]
    rcases hc : check_mtime m (.node p.1) p.2 with _ | val
    · exact ih hnd.2
    · rw [List.map_cons, List.nodup_cons]
      constructor
      · intro hmem
        rcases List.mem_map.mp hmem with ⟨kv, hkv, hfst⟩
        rcases mem_filterMap_nodes m rest kv hkv with ⟨q, hq, hform, _⟩
        have hval : val.1 = UKey.node p.1 := (check_mtime_some _ _ _ _ hc).1
        rw [hval] at hfst
        rw [hfst] at hform
        have : p.1 = q.1 := by injection hform
        apply hnd.1
        rw [this]
        exact List.mem_map.mpr ⟨q, hq, rfl⟩
      · exact ih hnd.2

theorem toList_keys_dir (m : List (UKey × Nat)) (name : String) (files : List Nat)
    (k : UKey) (h : k ∈ (check_mtime m (.dir name) files).toList.map Prod.fst) :
    k = .dir name := by
  rcases List.mem_map.mp h with ⟨kv, hkv, hfst⟩
  rw [Option.mem_toList, Option.mem_def] at hkv
  rw [← hfst]
  exact (check_mtime_some _ _ _ _ hkv).1

theorem newMtimes_keys_nodup (fs : FS) (m : List (UKey × Nat))
    (hnd : (fs.pagePaths.map Prod.fst).Nodup) :
    ((newMtimes fs m).map Prod.fst).Nodup := by
  rw [newMtimes, List.map_append, List.map_append]
  have hg : ((check_mtime m (.dir "gen") fs.genFiles).toList.map Prod.fst).Nodup := by
    cases check_mtime m (.dir "gen") fs.genFiles
    · exact List.nodup_nil
    · exact List.nodup_singleton _
  have ht : ((check_mtime m (.dir "templates") fs.templateFiles).toList.map
      Prod.fst).Nodup := by
    cases check_mtime m (.dir "templates") fs.templateFiles
    · exact List.nodup_nil
    · exact List.nodup_singleton _
  have hn := nodes_keys_nodup m fs.pagePaths hnd
  apply List.Nodup.append
  · apply List.Nodup.append hg ht
    intro k hk1 hk2
    have e1 := toList_keys_dir m "gen" fs.genFiles k hk1
    have e2 := toList_keys_dir m "templates" fs.templateFiles k hk2
    rw [e1] at e2
    have : "gen" = "templates" := by injection e2
    exact absurd this (by decide)
  · exact hn
  · intro k hk1 hk2
    rcases List.mem_map.mp hk2 with ⟨kv, hkv, hfst⟩
    rcases mem_filterMap_nodes m fs.pagePaths kv hkv with ⟨q, hq, hform, hc⟩
    have hk : k = UKey.node q.1 := (hfst.symm).trans hform
    rcases List.mem_append.mp hk1 with h1 | h1
    · have e1 := toList_keys_dir m "gen" fs.genFiles k h1
      rw [hk] at e1
      cases e1
    · have e1 := toList_keys_dir m "templates" fs.templateFiles k h1
      rw [hk] at e1
      cases e1

/-- After the snapshot is merged, re-checking a unit that contributed its
new max (or contributed nothing) reports no change. -/
theorem check_mtime_after (m newM : List (UKey × Nat)) (k : UKey) (files : List Nat)
    (hnd : (newM.map Prod.fst).Nodup)
    (hnone : check_mtime m k files = none → k ∉ newM.map Prod.fst)
    (hsome : ∀ p, check_mtime m k files = some p → p ∈ newM) :
    check_mtime (dictUpdate m newM) k files = none := by
  rcases hc : check_mtime m k files with _ | p
  · rw [check_mtime_eq_none_iff, alookup_dictUpdate_not_mem _ _ _ (hnone hc)]
    exact (check_mtime_eq_none_iff m k files).mp hc
  · obtain ⟨hk1, hv, _⟩ := check_mtime_some m k files p hc
    have hmem := hsome p hc
    have hlook : alookup (dictUpdate m newM) k = some p.2 := by
      have h2 := alookup_dictUpdate_mem m newM p.1 p.2 hnd
        (by rw [Prod.mk.eta]; exact hmem)
      rw [hk1] at h2
      exact h2
    rw [check_mtime_eq_none_iff, hlook]
    intro x hx
    show x ≤ p.2
    rw [hv]
    exact mem_le_foldl_max files _ x hx

/-- Running the mtime scan against the snapshot updated by its own result
finds no changed unit. -/
theorem newMtimes_self_update (fs : FS) (m : List (UKey × Nat))
    (hnd : (fs.pagePaths.map Prod.fst).Nodup) :
    newMtimes fs (dictUpdate m (newMtimes fs m)) = [] := by
  have hkeys := newMtimes_keys_nodup fs m hnd
  have hgen : check_mtime (dictUpdate m (newMtimes fs m)) (.dir "gen")
      fs.genFiles = none := by
    apply check_mtime_after _ _ _ _ hkeys
    · intro hc hmem
      rcases List.mem_map.mp hmem with ⟨kv, hkv, hfst⟩
      rcases (mem_newMtimes fs m kv).mp hkv with h | h | ⟨p, _, h⟩
      · rw [hc] at h
        cases h
      · have e := (hfst.symm).trans (check_mtime_some _ _ _ _ h).1
        have : "gen" = "templates" := by injection e
        exact absurd this (by decide)
      · have e := (hfst.symm).trans (check_mtime_some _ _ _ _ h).1
        cases e
    · intro p hp
      exact (mem_newMtimes fs m p).mpr (Or.inl hp)
  have htemp : check_mtime (dictUpdate m (newMtimes fs m)) (.dir "templates")
      fs.templateFiles = none := by
    apply check_mtime_after _ _ _ _ hkeys
    · intro hc hmem
      rcases List.mem_map.mp hmem with ⟨kv, hkv, hfst⟩
      rcases (mem_newMtimes fs m kv).mp hkv with h | h | ⟨p, _, h⟩
      · have e := (hfst.symm).trans (check_mtime_some _ _ _ _ h).1
        have : "templates" = "gen" := by injection e
        exact absurd this (by decide)
      · rw [hc] at h
        cases h
      · have e := (hfst.symm).trans (check_mtime_some _ _ _ _ h).1
        cases e
    · intro p hp
      exact (mem_newMtimes fs m p).mpr (Or.inr (Or.inl hp))
  have hnode : ∀ q ∈ fs.pagePaths,
      check_mtime (dictUpdate m (newMtimes fs m)) (.node q.1) q.2 = none := by
    intro q hq
    apply check_mtime_after _ _ _ _ hkeys
    · intro hc hmem
      rcases List.mem_map.mp hmem with ⟨kv, hkv, hfst⟩
      rcases (mem_newMtimes fs m kv).mp hkv with h | h | ⟨p, hp, h⟩
      · have e := (hfst.symm).trans (check_mtime_some _ _ _ _ h).1
        cases e
      · have e := (hfst.symm).trans (check_mtime_some _ _ _ _ h).1
        cases e
      · have e := ((check_mtime_some _ _ _ _ h).1.symm).trans hfst
        have hpq1 : p.1 = q.1 := by injection e
        have hpq : p = q := eq_of_fst_eq_nodup fs.pagePaths p q hnd hp hq hpq1
        rw [hpq, hc] at h
        cases h
    · intro p hp
      exact (mem_newMtimes fs m p).mpr (Or.inr (Or.inr ⟨q, hq, hp⟩))
  rw [newMtimes, hgen, htemp]
  simp only [Option.toList_none, List.nil_append, List.append_nil]
  rw [List.filterMap_eq_nil_iff]
  exact hnode

/-- C5: Invalidation idempotence. With no file modification times changing
between the two runs, the second `invalidate_cache` evicts nothing and
returns the first run's cache (in particular the mtime snapshot)
unchanged. `fs.pagePaths` carries distinct page ids, as produced by the
content store's directory scan. -/
theorem invalidation_idempotent (fs : FS) (c : Cache)
    (hnd : (fs.pagePaths.map Prod.fst).Nodup) :
    invalidate_cache fs (invalidate_cache fs c).1
      = ((invalidate_cache fs c).1, []) := by
  rcases hm : newMtimes fs c.mtimes with _ | ⟨kv, rest⟩
  · rw [invalidate_cache_nochange fs c hm]
    exact invalidate_cache_nochange fs c hm
  · by_cases hdir : (newMtimes fs c.mtimes).any (fun kv => kv.1.isDir) = true
    · rw [invalidate_cache_global fs c hdir]
      exact invalidate_cache_nochange _ _ (newMtimes_self_update fs c.mtimes hnd)
    · have hne : (newMtimes fs c.mtimes).isEmpty = false := by
        rw [hm]
        rfl
      have hdir2 : (newMtimes fs c.mtimes).any (fun kv => kv.1.isDir) = false := by
        cases hx : (newMtimes fs c.mtimes).any (fun kv => kv.1.isDir)
        · rfl
        · exact absurd hx hdir
      rw [invalidate_cache_selective fs c hne hdir2]
      exact invalidate_cache_nochange _ _ (newMtimes_self_update fs c.mtimes hnd)

/-- Witness for C5 at a concrete configuration with one changed page. -/
theorem invalidation_idempotent_witness :
    invalidate_cache ⟨[], [], [("b", [5])]⟩
        (invalidate_cache ⟨[], [], [("b", [5])]⟩ ⟨[], [], ["a", "b"]⟩).1
      = ((invalidate_cache ⟨[], [], [("b", [5])]⟩ ⟨[], [], ["a", "b"]⟩).1, []) :=
  invalidation_idempotent ⟨[], [], [("b", [5])]⟩ ⟨[], [], ["a", "b"]⟩ (by decide)

/-- C7 counterexample: on the global-clear branch (here the `dir:gen` unit
changed), page `p`'s cache entry is removed by `cache.clear()`, yet
`invalidate_cache` returns the empty set — not the set of page ids whose
entries were evicted. -/
theorem evicted_return_counterexample :
    "p" ∈ Cache.entries ⟨[], [], ["p"]⟩
      ∧ "p" ∉ (invalidate_cache ⟨[1], [], [("p", [0])]⟩ ⟨[], [], ["p"]⟩).1.entries
      ∧ (invalidate_cache ⟨[1], [], [("p", [0])]⟩ ⟨[], [], ["p"]⟩).2 = [] := by
  decide

/-- C7 amended: on the no-change and selective branches the returned set is
exactly the set of page ids whose tagged entries were evicted; on the
global-clear branch the empty set is returned even though every entry is
removed. -/
theorem evicted_return_amended (fs : FS) (c : Cache) :
    ((newMtimes fs c.mtimes).any (fun kv => kv.1.isDir) = false →
      ∀ id, (id ∈ c.entries ∧ id ∉ (invalidate_cache fs c).1.entries)
        ↔ (id ∈ c.entries ∧ id ∈ (invalidate_cache fs c).2))
    ∧ ((newMtimes fs c.mtimes).any (fun kv => kv.1.isDir) = true →
      (invalidate_cache fs c).2 = []) := by
  constructor
  · intro hdir id
    rcases hm : newMtimes fs c.mtimes with _ | ⟨kv0, rest⟩
    · rw [invalidate_cache_nochange fs c hm]
      constructor
      · rintro ⟨h1, h2⟩
        exact absurd h1 h2
      · rintro ⟨_, h2⟩
        cases h2
    · have hne : (newMtimes fs c.mtimes).isEmpty = false := by
        rw [hm]
        rfl
      rw [invalidate_cache_selective fs c hne hdir]
      constructor
      · rintro ⟨h1, h2⟩
        refine ⟨h1, ?_⟩
        by_cases hk : UKey.node id
            ∈ toEvict (newMtimes fs c.mtimes) (invert_dependencies c.dependencies)
        · exact List.mem_map.mpr ⟨UKey.node id, hk, rfl⟩
        · exact absurd (List.mem_filter.mpr ⟨h1, decide_eq_true hk⟩) h2
      · rintro ⟨h1, h2⟩
        refine ⟨h1, ?_⟩
        intro hmem
        have h3 := (List.mem_filter.mp hmem).2
        rw [decide_eq_true_iff] at h3
        rcases List.mem_map.mp h2 with ⟨k, hk, hs⟩
        rcases (mem_toEvict _ _ k).mp hk with ⟨kv, hkv, hcase⟩
        rcases hcase with rfl | hmap
        · have hnd : kv.1.isDir = false := by
            cases hd : kv.1.isDir
            · rfl
            · exact absurd (List.any_eq_true.mpr ⟨kv, hkv, hd⟩) (by
                rw [hdir]
                exact Bool.false_ne_true)
          rcases hkv1 : kv.1 with n | i
          · rw [hkv1] at hnd
            cases hnd
          · rw [hkv1] at hs hk
            have hid : i = id := hs
            rw [hid] at hk
            exact h3 hk
        · rcases List.mem_map.mp hmap with ⟨x, hx, rfl⟩
          have hid : x = id := hs
          rw [hid] at hk
          exact h3 hk
  · intro hdir
    rw [invalidate_cache_global fs c hdir]

/-- Witness for the amended C7 on the global-clear branch. -/
theorem evicted_return_amended_witness :
    (invalidate_cache ⟨[1], [], [("q", [0])]⟩ ⟨[], [], ["q"]⟩).2 = [] :=
  (evicted_return_amended ⟨[1], [], [("q", [0])]⟩ ⟨[], [], ["q"]⟩).2 (by decide)

/-- C10 counterexample: page `a`'s file is gone (its unit matches no files,
snapshot 3), so `a` is not marked changed — yet `a`'s cache entry is
evicted, because `a` is a recorded dependent of the changed page `b`. -/
theorem increase_only_counterexample :
    UKey.node "a" ∉ (newMtimes ⟨[], [], [("a", []), ("b", [5])]⟩
        (Cache.mtimes ⟨[(.node "a", 3), (.node "b", 1)],
          [("a", ["b"])], ["a", "b"]⟩)).map Prod.fst
      ∧ "a" ∈ Cache.entries ⟨[(.node "a", 3), (.node "b", 1)],
          [("a", ["b"])], ["a", "b"]⟩
      ∧ "a" ∉ (invalidate_cache ⟨[], [], [("a", []), ("b", [5])]⟩
          ⟨[(.node "a", 3), (.node "b", 1)],
            [("a", ["b"])], ["a", "b"]⟩).1.entries := by
  decide

/-- C10 amended: a unit whose current maximum mtime does not exceed its
snapshot (decreased, or its files no longer exist) is not marked changed
and its snapshot entry is left unchanged; its cache entries are not evicted
on account of its own files — they can only disappear through the global
clear or by being a recorded dependent of a changed page. -/
theorem increase_only_amended (fs : FS) (c : Cache) (x : String)
    (hfiles : ∀ q ∈ fs.pagePaths, q.1 = x →
      ∀ mt ∈ q.2, mt ≤ (alookup c.mtimes (.node x)).getD 0) :
    UKey.node x ∉ (newMtimes fs c.mtimes).map Prod.fst
      ∧ alookup (invalidate_cache fs c).1.mtimes (.node x)
          = alookup c.mtimes (.node x)
      ∧ ((newMtimes fs c.mtimes).any (fun kv => kv.1.isDir) = false →
          (∀ kv ∈ newMtimes fs c.mtimes,
            x ∉ lookupSet (invert_dependencies c.dependencies) kv.1.stripId) →
          x ∈ c.entries → x ∈ (invalidate_cache fs c).1.entries) := by
  have hkey : UKey.node x ∉ (newMtimes fs c.mtimes).map Prod.fst := by
    intro hmem
    rcases List.mem_map.mp hmem with ⟨kv, hkv, hfst⟩
    rcases (mem_newMtimes fs c.mtimes kv).mp hkv with h | h | ⟨p, hp, h⟩
    · have e := (hfst.symm).trans (check_mtime_some _ _ _ _ h).1
      cases e
    · have e := (hfst.symm).trans (check_mtime_some _ _ _ _ h).1
      cases e
    · have e := ((check_mtime_some _ _ _ _ h).1.symm).trans hfst
      have hpx : p.1 = x := by injection e
      have hnone : check_mtime c.mtimes (.node p.1) p.2 = none := by
        rw [check_mtime_eq_none_iff, hpx]
        exact hfiles p hp hpx
      rw [hnone] at h
      cases h
  refine ⟨hkey, ?_, ?_⟩
  · rcases hm : newMtimes fs c.mtimes with _ | ⟨kv0, rest⟩
    · rw [invalidate_cache_nochange fs c hm]
    · have hne : (newMtimes fs c.mtimes).isEmpty = false := by
        rw [hm]
        rfl
      by_cases hdir : (newMtimes fs c.mtimes).any (fun kv => kv.1.isDir) = true
      · rw [invalidate_cache_global fs c hdir]
        exact alookup_dictUpdate_not_mem _ _ _ hkey
      · have hdir2 : (newMtimes fs c.mtimes).any (fun kv => kv.1.isDir) = false := by
          cases hx : (newMtimes fs c.mtimes).any (fun kv => kv.1.isDir)
          · rfl
          · exact absurd hx hdir
        rw [invalidate_cache_selective fs c hne hdir2]
        exact alookup_dictUpdate_not_mem _ _ _ hkey
  · intro hdir hdep hx
    rcases hm : newMtimes fs c.mtimes with _ | ⟨kv0, rest⟩
    · rw [invalidate_cache_nochange fs c hm]
      exact hx
    · have hne : (newMtimes fs c.mtimes).isEmpty = false := by
        rw [hm]
        rfl
      rw [invalidate_cache_selective fs c hne hdir]
      refine List.mem_filter.mpr ⟨hx, decide_eq_true ?_⟩
      intro hk
      rcases (mem_toEvict _ _ _).mp hk with ⟨kv, hkv, hcase⟩
      rcases hcase with heq | hmap
      · exact hkey (List.mem_map.mpr ⟨kv, hkv, heq.symm⟩)
      · rcases List.mem_map.mp hmap with ⟨y, hy, he⟩
        have hyx : y = x := by injection he
        rw [hyx] at hy
        exact hdep kv hkv hy

/-- Witness for the amended C10: page `a`'s mtime went down (2 < snapshot 3)
while `b` changed; `a` is not a dependent of `b`, so `a`'s entry survives. -/
theorem increase_only_amended_witness :
    "a" ∈ (invalidate_cache ⟨[], [], [("a", [2]), ("b", [5])]⟩
        ⟨[(.node "a", 3), (.node "b", 1)], [], ["a", "b"]⟩).1.entries :=
  (increase_only_amended ⟨[], [], [("a", [2]), ("b", [5])]⟩
      ⟨[(.node "a", 3), (.node "b", 1)], [], ["a", "b"]⟩ "a"
      (by decide)).2.2 (by decide) (by decide) (by decide)

theorem alookup_foldl_dictPop (l : List String)
    (m : List (String × List String)) (a : String) :
    alookup (l.foldl (fun m' id => dictPop m' id) m) a
      = if a ∈ l then none else alookup m a := by
  induction l generalizing m with
  | nil => simp
  | cons k rest ih =>
    rw [List.foldl_cons, ih]
    by_cases hak : a = k
    · subst hak
      by_cases hr : a ∈ rest <;>
        simp [hr, alookup_dictPop_self]
    · by_cases hr : a ∈ rest <;>
        simp [List.mem_cons, hak, hr, alookup_dictPop_ne m k a hak]

/-- C2 counterexample: page `a` was not evicted and had no persisted graph
entry, yet after the post-run merge (`setdefault`) it has one — its
persisted entry is not left unchanged. This is exactly the state of the
first cached run (or any run after a global clear): the previous graph is
empty, `invalidate_cache` returned the empty set, and the tracker recorded
a self-edge for every rendered page. -/
theorem dependency_merge_counterexample :
    "a" ∉ ([] : List String)
      ∧ alookup ([] : List (String × List String)) "a" = none
      ∧ alookup (mergeDependencies [] [] [("a", ["a"])]) "a" = some ["a"] := by
  decide

/-- C2 amended: after the post-run merge, every evicted page's entry equals
exactly what the new render observed (stale edges gone, entry absent when
nothing was observed); a page that was not evicted keeps its existing
entry, but when it had none it acquires the newly observed one. -/
theorem dependency_merge_amended (old newDeps : List (String × List String))
    (evicted : List String) (a : String) :
    (a ∈ evicted →
      alookup (mergeDependencies old evicted newDeps) a = alookup newDeps a)
    ∧ (a ∉ evicted →
      alookup (mergeDependencies old evicted newDeps) a
        = (alookup old a).or (alookup newDeps a)) := by
  constructor
  · intro h
    rw [mergeDependencies, alookup_foldl_setdefault, alookup_foldl_dictPop,
      if_pos h]
    rfl
  · intro h
    rw [mergeDependencies, alookup_foldl_setdefault, alookup_foldl_dictPop,
      if_neg h]

/-- Witness for the amended C2 at the spec's own example: `a` previously
depended on `{b, c}`, was evicted and re-rendered reading only `{d}`; its
persisted entry becomes exactly `{d}`. -/
theorem dependency_merge_amended_witness :
    alookup (mergeDependencies [("a", ["b", "c"])] ["a"] [("a", ["d"])]) "a"
      = some ["d"] := by
  have h := (dependency_merge_amended [("a", ["b", "c"])] [("a", ["d"])]
    ["a"] "a").1 (by decide)
  rw [h]
  decide

/-- C4: Not-found is never cached. For any function wrapped by the node
cache decorator, when the underlying function raises and neither tier
holds the key, the error propagates, both tiers are unchanged, and the
next call with the same arguments raises again. -/
theorem notfound_uncached {V : Type} (fn : String → Except String V)
    (fname : String) (st : CacheTiers V) (id : String) (e : String)
    (hfn : fn id = Except.error e)
    (hm : alookup st.memo (fname, id) = none)
    (hs : alookup st.store (fname, id) = none) :
    cachedCall fn fname st id = (Except.error e, st)
      ∧ cachedCall fn fname (cachedCall fn fname st id).2 id
          = (Except.error e, st) := by
  have h1 : cachedCall fn fname st id = (Except.error e, st) := by
    rw [cachedCall, hm, hs, hfn]
  refine ⟨h1, ?_⟩
  rw [h1]
  exact h1

/-- Witness for C4: a function that always reports a missing page, called
twice against empty tiers. -/
theorem notfound_uncached_witness :
    cachedCall (fun _ => (Except.error "not found" : Except String Nat)) "f"
        ⟨[], []⟩ "x" = (Except.error "not found", ⟨[], []⟩)
      ∧ cachedCall (fun _ => (Except.error "not found" : Except String Nat)) "f"
          (cachedCall (fun _ => (Except.error "not found" : Except String Nat))
            "f" ⟨[], []⟩ "x").2 "x"
          = (Except.error "not found", ⟨[], []⟩) :=
  notfound_uncached (fun _ => (Except.error "not found" : Except String Nat))
    "f" ⟨[], []⟩ "x" "not found" rfl rfl rfl

/-- C6: Observation attribution. Both hooks add the observed id(s) to the
dependency set of the innermost stack id, change no other key's set, leave
the stack alone, and are no-ops on an empty stack. -/
theorem observation_attribution (t : DependecyTracker) (id : String)
    (ids : List String) :
    (t.stack = [] → t.page id = t ∧ t.pages ids = t)
    ∧ (∀ top, t.stack.getLast? = some top →
        (t.page id).stack = t.stack
        ∧ (t.pages ids).stack = t.stack
        ∧ (∀ k y, y ∈ lookupSet (t.page id).dependencies k
            ↔ (k = top ∧ y = id) ∨ y ∈ lookupSet t.dependencies k)
        ∧ (∀ k y, y ∈ lookupSet (t.pages ids).dependencies k
            ↔ (k = top ∧ y ∈ ids) ∨ y ∈ lookupSet t.dependencies k)) := by
  constructor
  · intro h
    constructor
    · simp [DependecyTracker.page, h]
    · simp [DependecyTracker.pages, h]
  · intro top htop
    have hp : t.page id
        = { t with dependencies := depAdd t.dependencies top id } := by
      rw [DependecyTracker.page, htop]
    have hps : t.pages ids
        = { t with
            dependencies :=
              ids.foldl (fun d i => depAdd d top i) t.dependencies } := by
      rw [DependecyTracker.pages, htop]
    refine ⟨by rw [hp], by rw [hps], ?_, ?_⟩
    · intro k y
      rw [hp]
      exact mem_lookupSet_depAdd t.dependencies top id k y
    · intro k y
      rw [hps]
      exact mem_lookupSet_foldl_depAdd_right ids t.dependencies top k y

/-- Witness for C6: with `r` rendering, observing page `b` records the
edge `r → b`. -/
theorem observation_attribution_witness :
    "b" ∈ lookupSet ((DependecyTracker.page ⟨[], ["r"]⟩ "b").dependencies) "r" :=
  (((observation_attribution ⟨[], ["r"]⟩ "b" ["c"]).2 "r" rfl).2.2.1
    "r" "b").mpr (Or.inl ⟨rfl, rfl⟩)

/-- C9 counterexample: when the wrapped view raises, `intercept` skips
`on_return`, so the pushed id is not popped: starting from an empty stack,
after the exceptional exit the stack is `["p"]`, not the pre-entry `[]`. -/
theorem scope_guard_counterexample :
    ((intercept_node (fun t _ => ((Except.error () : Except Unit Unit), t))
        ⟨[], []⟩ "p").2).stack = ["p"]
      ∧ (["p"] : List String) ≠ [] := by
  constructor
  · rfl
  · intro h
    cases h

/-- C9 amended: the id pushed on entry is popped on exit when the wrapped
render returns normally (so the stack equals the pre-entry stack); when the
wrapped render raises, the pop is skipped and the id stays on the stack. -/
theorem scope_guard_amended {E A : Type}
    (fn : DependecyTracker → String → Except E A × DependecyTracker)
    (t : DependecyTracker) (id : String)
    (hfn : (fn (t.start_node id) id).2.stack = (t.start_node id).stack) :
    ((∃ v, (fn (t.start_node id) id).1 = Except.ok v) →
      (intercept_node fn t id).2.stack = t.stack)
    ∧ (∀ e, (fn (t.start_node id) id).1 = Except.error e →
      (intercept_node fn t id).2.stack = t.stack ++ [id]) := by
  rcases hp : fn (t.start_node id) id with ⟨r, t2⟩
  rw [hp] at hfn
  have hstack : t2.stack = t.stack ++ [id] := hfn
  constructor
  · rintro ⟨v, hv⟩
    have hr : r = Except.ok v := hv
    rw [intercept_node, hp, hr]
    show (DependecyTracker.end_node t2).stack = t.stack
    rw [DependecyTracker.end_node]
    show t2.stack.dropLast = t.stack
    rw [hstack]
    exact List.dropLast_concat
  · intro e he
    have hr : r = Except.error e := he
    rw [intercept_node, hp, hr]
    exact hstack

/-- Witness for the amended C9: a normally returning render; the stack
after the scope equals the stack before. -/
theorem scope_guard_amended_witness :
    (intercept_node (fun t _ => ((Except.ok 0 : Except Unit Nat), t))
        ⟨[], ["r"]⟩ "p").2.stack = ["r"] :=
  (scope_guard_amended (fun t _ => ((Except.ok 0 : Except Unit Nat), t))
      ⟨[], ["r"]⟩ "p" rfl).1 ⟨0, rfl⟩

/-- C8 counterexample: a feed-route URL with a fragment whose target page
is missing reports `"node not found"`, not the feed-fragment error; and a
tag-feed-route URL (`feed.tag_feed`) with a fragment reports no error at
all — so not every fragment-carrying feed URL gets the feed error. -/
theorem feed_fragment_counterexample :
    checkLink (fun _ => false) (fun _ => [])
        ⟨"feed.feed", "t", "frag"⟩ = some "node not found"
      ∧ checkLink (fun _ => true) (fun _ => [])
          ⟨"feed.tag_feed", "t", "frag"⟩ = none := by
  decide

/-- C8 amended: for an internal link matched to the plain feed route
(endpoint `feed.feed`) whose target page exists, a fragment yields exactly
the error `"feed URL should not have fragment"`, and no fragment yields no
error. (A missing target yields `"node not found"` instead, and the
tag-feed route has no fragment check.) -/
theorem feed_fragment_amended (pageExists : String → Bool)
    (fragments : String → List String) (link : InternalLink)
    (hex : pageExists link.targetId = true)
    (hfeed : link.endpoint = "feed.feed") :
    (link.fragment ≠ "" →
      checkLink pageExists fragments link
        = some "feed URL should not have fragment")
    ∧ (link.fragment = "" → checkLink pageExists fragments link = none) := by
  have hne : ¬ link.endpoint = "main.page" := by
    rw [hfeed]
    decide
  have hnf : ¬ link.endpoint = "main.file" := by
    rw [hfeed]
    decide
  have hexists : ¬ ¬ (pageExists link.targetId = true) := by
    intro hc
    exact hc hex
  constructor
  · intro hfrag
    rw [checkLink, if_neg hexists, if_neg hne, if_neg hnf, if_pos hfeed,
      if_pos hfrag]
  · intro hfrag
    rw [checkLink, if_neg hexists, if_neg hne, if_neg hnf, if_pos hfeed,
      if_neg (fun hc => hc hfrag)]

/-- Witness for the amended C8: an existing target, fragment present. -/
theorem feed_fragment_amended_witness :
    checkLink (fun _ => true) (fun _ => []) ⟨"feed.feed", "t", "x"⟩
      = some "feed URL should not have fragment" :=
  (feed_fragment_amended (fun _ => true) (fun _ => [])
      ⟨"feed.feed", "t", "x"⟩ rfl rfl).1 (by decide)

end Gen
